import Mathlib

/-!
Verification of the core of the Crego rule-generation service
(`src/core/vector_store.py`, `src/core/mapper.py`, `src/core/rag.py`,
`src/core/validator.py`, `src/core/jsonlogic_builder.py`).

Modelling conventions:
* numpy float arrays are modelled as `List ℚ`; a 2-D array is `List (List ℚ)`.
* `sklearn`'s `cosine_similarity` kernel is abstracted as a function
  `cos : List ℚ → List ℚ → ℚ` supplied as a parameter (its floating point
  internals are external to this repository); everything the code does with
  the resulting score row is modelled exactly.
* `np.argsort` is modelled as a stable ascending sort of the index list.
  numpy's default introsort is not stable in general; it runs as a stable
  insertion sort exactly on arrays of at most 16 elements.  Every general
  theorem below is independent of tie order; the one theorem about tie
  order carries the at-most-16-entries bound as a hypothesis, so the
  model is used only where it coincides with numpy.
* Python exceptions are modelled with `Except String`; a function that can
  raise returns `Except.error` at exactly the points where the Python
  raises, before any of the object's fields have been mutated.
-/

namespace VectorStoreM

/-- Ordered insertion of index `i` into an index list already sorted by
ascending score: `i` goes in front of the first index whose score is not
strictly smaller. -/
def insertIdx (sims : List ℚ) (i : Nat) : List Nat → List Nat
  | [] => [i]
  | j :: rest =>
    if sims.getD j 0 < sims.getD i 0 then j :: insertIdx sims i rest
    else i :: j :: rest

/-- Insertion sort of an index list by ascending score. -/
def argsortAux (sims : List ℚ) : List Nat → List Nat
  | [] => []
  | i :: rest => insertIdx sims i (argsortAux sims rest)

/-- Model of `np.argsort(similarities)`: the indices `0 .. n-1` sorted by
ascending score, ties kept in index order (stable).  This coincides with
numpy for arrays of at most 16 elements (the insertion-sort regime of its
introsort); for larger arrays numpy's tie order is unspecified, so tie
order is only concluded below under that bound. -/
def argsort (sims : List ℚ) : List Nat :=
  argsortAux sims (List.range sims.length)

/-- State of `InMemoryVectorStore` (`vector_store.py`): parallel lists
`embeddings`, `texts`, `ids`. -/
structure InMemory where
  embeddings : List (List ℚ)
  texts : List String
  ids : List String

/-- `self.embeddings.size` — the total number of scalar entries of the
stored 2-D array. -/
def InMemory.size (s : InMemory) : Nat :=
  (s.embeddings.map List.length).sum

/-- The dimension established by the first insertion: the length of the
first stored row (numpy keeps the stored 2-D array rectangular). -/
def InMemory.estDim (s : InMemory) : Nat :=
  (s.embeddings.headD []).length

/-- `InMemoryVectorStore.add_texts`.  `np.vstack` raises `ValueError`
when a new row's length disagrees with the established dimension; the
raise happens before any field of the object is assigned. -/
def InMemory.add_texts (s : InMemory) (texts : List String)
    (embeddings : List (List ℚ)) (ids : Option (List String)) :
    Except String InMemory :=
  let ids := ids.getD ((List.range texts.length).map toString)
  if s.size = 0 then
    Except.ok { embeddings := embeddings, texts := s.texts ++ texts,
                ids := s.ids ++ ids }
  else if embeddings.all (fun row => row.length = s.estDim) then
    Except.ok { embeddings := s.embeddings ++ embeddings,
                texts := s.texts ++ texts, ids := s.ids ++ ids }
  else
    Except.error "ValueError: all the input array dimensions must match"

/-- The state of the Python object after an `add_texts` call: unchanged
when the call raises (the raise precedes every field mutation). -/
def InMemory.add_textsState (s : InMemory) (texts : List String)
    (embeddings : List (List ℚ)) (ids : Option (List String)) : InMemory :=
  match s.add_texts texts embeddings ids with
  | Except.ok s2 => s2
  | Except.error _ => s

/-- `InMemoryVectorStore.search`: cosine scores against every stored row,
`np.argsort(...)[::-1][:top_k]`, then `(self.ids[i], similarities[i], i)`
per selected index.  `cos` abstracts the `cosine_similarity` kernel. -/
def InMemory.search (s : InMemory) (cos : List ℚ → List ℚ → ℚ)
    (embedding : List ℚ) (top_k : Nat) : List (String × ℚ × Nat) :=
  if s.size = 0 then []
  else
    let sims := s.embeddings.map (cos embedding)
    let top := ((argsort sims).reverse.take top_k)
    top.map (fun i => (s.ids.getD i "", sims.getD i 0, i))

/-- State of `FAISSVectorStore`: a flat L2 index over `vectors`, the
`dimension` fixed at construction, and parallel `texts`/`ids`. -/
structure Faiss where
  dimension : Nat
  vectors : List (List ℚ)
  texts : List String
  ids : List String

/-- Squared L2 distance used by `faiss.IndexFlatL2`. -/
def l2sq (u v : List ℚ) : ℚ :=
  ((u.zip v).map (fun p => (p.1 - p.2) ^ 2)).sum

/-- `FAISSVectorStore.add_texts`: `index.add` rejects rows whose length
differs from the index dimension, before anything is appended. -/
def Faiss.add_texts (s : Faiss) (texts : List String)
    (embeddings : List (List ℚ)) (ids : Option (List String)) :
    Except String Faiss :=
  let ids := ids.getD ((List.range texts.length).map toString)
  if embeddings.all (fun row => row.length = s.dimension) then
    Except.ok { s with
      vectors := s.vectors ++ embeddings
      texts := s.texts ++ texts
      ids := s.ids ++ ids }
  else
    Except.error "AssertionError: d does not match index dimension"

/-- The state of the Python object after `FAISSVectorStore.add_texts`:
unchanged when the call raises. -/
def Faiss.add_textsState (s : Faiss) (texts : List String)
    (embeddings : List (List ℚ)) (ids : Option (List String)) : Faiss :=
  match s.add_texts texts embeddings ids with
  | Except.ok s2 => s2
  | Except.error _ => s

/-- `FAISSVectorStore.search`: the flat index returns the
`min(top_k, ntotal)` stored ids by ascending squared-L2 distance; each
surviving index (`0 <= idx < len(self.ids)`) is reported with similarity
`1 / (1 + distance)`. -/
def Faiss.search (s : Faiss) (embedding : List ℚ) (top_k : Nat) :
    List (String × ℚ × Nat) :=
  if s.vectors.length = 0 then []
  else
    let dists := s.vectors.map (l2sq embedding)
    let idxs := (argsort dists).take (min top_k s.vectors.length)
    (idxs.filter (fun i => i < s.ids.length)).map
      (fun i => (s.ids.getD i "", 1 / (1 + dists.getD i 0), i))

end VectorStoreM

namespace MapperM

/-- `KeyMapping` (`mapper.py`): a resolved phrase-to-key mapping. -/
structure KeyMapping where
  user_phrase : String
  mapped_to : String
  similarity : ℚ
deriving DecidableEq

/-- One entry of the `errors` list built by `KeyMapper.map_phrases`, with
the data interpolated into the Python message kept structured: either the
no-results message or the below-threshold message with its best score and
the `results[:3]` suggestion keys. -/
inductive MapError where
  | noMatch (phrase : String)
  | lowConfidence (phrase : String) (bestSimilarity : ℚ)
      (suggestions : List String)
deriving DecidableEq

/-- `KeyMapper.map_phrases`, given the extracted phrase list and the
per-phrase retrieval `searchFn` (the composition of
`embedding_manager.embed_single` and `vector_store.search` with the
configured `top_k`).  The phrase extractor itself is kept as an input
because its Python `list(set(...))` step has no specified order.  Per
phrase: no results → a `noMatch` error; best similarity strictly below
the threshold → a `lowConfidence` error carrying the top-3 suggestion
keys; otherwise a `KeyMapping` from the best result. -/
def map_phrases (threshold : ℚ)
    (searchFn : String → List (String × ℚ × Nat)) :
    List String → List KeyMapping × List MapError
  | [] => ([], [])
  | phrase :: rest =>
    let acc := map_phrases threshold searchFn rest
    match searchFn phrase with
    | [] => (acc.1, MapError.noMatch phrase :: acc.2)
    | best :: more =>
      if best.2.1 < threshold then
        (acc.1,
         MapError.lowConfidence phrase best.2.1
             (((best :: more).take 3).map (fun r => r.1))
           :: acc.2)
      else
        ({ user_phrase := phrase, mapped_to := best.1,
           similarity := best.2.1 } :: acc.1, acc.2)

end MapperM

namespace RagM

/-- `RAGSystem.retrieve` over an `InMemoryVectorStore` (the store the
tests wire in; for that store the emptiness test is
`len(self.vector_store.texts) == 0`).  `embed` abstracts
`embedding_manager.embed_single`; `cos` abstracts the cosine kernel as in
`InMemory.search`.  Results at or above the threshold contribute their
`text_id` to the context parts, which are joined as a `"- "` bullet list
separated by blank lines. -/
def retrieve (store : VectorStoreM.InMemory)
    (cos : List ℚ → List ℚ → ℚ) (embed : String → List ℚ)
    (top_k : Nat) (threshold : ℚ) (query : String) : String :=
  if store.texts.length = 0 then ""
  else
    let results := store.search cos (embed query) top_k
    let contextParts :=
      (results.filter (fun r => threshold ≤ r.2.1)).map (fun r => r.1)
    if contextParts.isEmpty then ""
    else
      String.intercalate "\n\n"
        ((contextParts.take top_k).map (fun p => "- " ++ p))

end RagM

namespace ValidatorM

mutual
/-- JSON-like Python values (`Any` trees handled by `validator.py` and
`jsonlogic_builder.py`): null, booleans, numbers, strings, lists, and
dicts (insertion-ordered, as Python dicts are).  Lists and dicts carry
their own spine types `JsonList` / `JsonFields` so that the recursive
checks below are structural. -/
inductive Json where
  | null
  | bool (b : Bool)
  | num (q : ℚ)
  | str (s : String)
  | arr (items : JsonList)
  | obj (fields : JsonFields)
inductive JsonList where
  | nil
  | cons (head : Json) (tail : JsonList)
inductive JsonFields where
  | nil
  | cons (key : String) (value : Json) (tail : JsonFields)
end

/-- Python hashability: lists and dicts are unhashable, every other JSON
value is hashable. -/
def Json.hashable : Json → Bool
  | .arr _ => false
  | .obj _ => false
  | _ => true

/-- Membership of a (hashable) Python value in the `set` of allowed key
strings: only an equal string can be a member. -/
def Json.inStrSet (v : Json) (allowed : List String) : Bool :=
  match v with
  | .str s => allowed.contains s
  | _ => false

/-- `node.get(k)` on a dict. -/
def JsonFields.lookup : JsonFields → String → Option Json
  | .nil, _ => none
  | .cons k v rest, key => if k = key then some v else rest.lookup key

/-- Emptiness of a list value (Python truthiness ingredient). -/
def JsonList.isEmpty : JsonList → Bool
  | .nil => true
  | _ => false

/-- Emptiness of a dict value (Python truthiness ingredient). -/
def JsonFields.isEmpty : JsonFields → Bool
  | .nil => true
  | _ => false

/-- The spine of a Python list literal of trees. -/
def toJsonList : List Json → JsonList
  | [] => JsonList.nil
  | x :: rest => JsonList.cons x (toJsonList rest)

/-- The keys the depth check treats as logical operators. -/
def logicalOps : List String := ["and", "or", "if"]

/-- The comparison/arithmetic keys of the depth check. -/
def compArithOps : List String :=
  [">", ">=", "<", "<=", "==", "!=", "in", "+", "-", "*", "/"]

/-- `allowed_operators` of `_validate_operators` (also the recognized-key
list of `_validate_variables`). -/
def allowedOperators : List String :=
  ["and", "or", "if", ">", ">=", "<", "<=", "==", "!=", "in",
   "+", "-", "*", "/"]

/-- One entry of the `errors` list of `validate_complete`, with the data
interpolated into each Python message kept structured. -/
inductive Violation where
  | badJson (msg : String)
  | tooLarge (size maxSize : Nat)
  | tooDeep (maxDepth : Nat)
  | unknownVar (name : Json)
  | badOperator (name : String)

mutual
/-- `RuleValidator._validate_depth`: fails when the current depth exceeds
`max_depth`; descends only through recognized operator keys — logical
keys descend into their value (list items or the value itself),
comparison/arithmetic keys only descend into list values, every other
key is skipped. -/
def validateDepth (maxDepth : Nat) (rule : Json) (depth : Nat) : Bool :=
  if depth > maxDepth then false
  else
    match rule with
    | .obj fields => depthFields maxDepth fields depth
    | _ => true
termination_by structural rule

/-- The `for key, value in rule.items()` loop of `_validate_depth`.  A
logical key's non-list value recurses via `_validate_depth(value,
current_depth + 1)`; that call is inlined one step here (its entry
depth test, then its dict dispatch) so the recursion is structural —
the behaviour is identical. -/
def depthFields (maxDepth : Nat) (fields : JsonFields) (depth : Nat) : Bool :=
  match fields with
  | .nil => true
  | .cons key value rest =>
    (if logicalOps.contains key then
       (match value with
        | .arr items => depthItems maxDepth items depth
        | .obj fields2 =>
          if depth + 1 > maxDepth then false
          else depthFields maxDepth fields2 (depth + 1)
        | _ => if depth + 1 > maxDepth then false else true)
     else if compArithOps.contains key then
       (match value with
        | .arr items => depthItems maxDepth items depth
        | _ => true)
     else true)
    && depthFields maxDepth rest depth
termination_by structural fields

/-- The `for item in value` loop of `_validate_depth`, recursing one
level deeper per item. -/
def depthItems (maxDepth : Nat) (items : JsonList) (depth : Nat) : Bool :=
  match items with
  | .nil => true
  | .cons item rest =>
    validateDepth maxDepth item (depth + 1) && depthItems maxDepth rest depth
termination_by structural items
end

mutual
/-- `check_vars` inside `RuleValidator._validate_variables`.  On a dict
with a `var` key the value is tested for membership of the allowed-key
set: Python raises `TypeError` there when the value is unhashable (a
list or dict), modelled as `Except.error`; a hashable value that is not
one of the allowed strings is a violation.  Dicts without `var` recurse
into every value, lists recurse into every item. -/
def checkVars (allowed : List String) (node : Json) :
    Except String (List Violation) :=
  match node with
  | .obj fields =>
    match fields.lookup "var" with
    | some v =>
      if v.hashable then
        if v.inStrSet allowed then Except.ok []
        else Except.ok [Violation.unknownVar v]
      else Except.error "TypeError: unhashable type"
    | none => checkVarsFields allowed fields
  | .arr items => checkVarsItems allowed items
  | _ => Except.ok []
termination_by structural node

/-- The field loop of `check_vars` (the unknown-operator case only logs
a warning, contributing nothing).  A non-list value recurses via
`check_vars(value)`; that call is inlined one step (its dict dispatch)
so the recursion is structural — the behaviour is identical. -/
def checkVarsFields (allowed : List String) (fields : JsonFields) :
    Except String (List Violation) :=
  match fields with
  | .nil => Except.ok []
  | .cons _ value rest => do
    let e1 ← (match value with
      | .arr items => checkVarsItems allowed items
      | .obj fields2 =>
        (match fields2.lookup "var" with
         | some v =>
           if v.hashable then
             if v.inStrSet allowed then Except.ok []
             else Except.ok [Violation.unknownVar v]
           else Except.error "TypeError: unhashable type"
         | none => checkVarsFields allowed fields2)
      | _ => Except.ok [])
    let e2 ← checkVarsFields allowed rest
    Except.ok (e1 ++ e2)
termination_by structural fields

/-- The item loop of `check_vars`. -/
def checkVarsItems (allowed : List String) (items : JsonList) :
    Except String (List Violation) :=
  match items with
  | .nil => Except.ok []
  | .cons item rest => do
    let e1 ← checkVars allowed item
    let e2 ← checkVarsItems allowed rest
    Except.ok (e1 ++ e2)
termination_by structural items
end

mutual
/-- `check_operators` inside `RuleValidator._validate_operators`: a `var`
key is skipped entirely; any other key outside the allowed-operator set
is a violation; values are recursed into (list items or the value). -/
def checkOps (node : Json) : List Violation :=
  match node with
  | .obj fields => opsFields fields
  | .arr items => opsItems items
  | _ => []
termination_by structural node

/-- The field loop of `check_operators`.  A non-list value recurses via
`check_operators(value)`; that call is inlined one step (its dict/list
dispatch) so the recursion is structural — the behaviour is
identical. -/
def opsFields (fields : JsonFields) : List Violation :=
  match fields with
  | .nil => []
  | .cons key value rest =>
    if key = "var" then opsFields rest
    else
      (if allowedOperators.contains key then []
       else [Violation.badOperator key])
      ++ (match value with
          | .arr items => opsItems items
          | .obj fields2 => opsFields fields2
          | _ => [])
      ++ opsFields rest
termination_by structural fields

/-- The item loop of `check_operators`. -/
def opsItems (items : JsonList) : List Violation :=
  match items with
  | .nil => []
  | .cons item rest => checkOps item ++ opsItems rest
termination_by structural items
end

/-- `RuleValidator._validate_json_syntax`: a string rule succeeds iff
`json.loads` accepts it (abstracted as `loadsOk`); any other JSON tree is
`json.dumps`-serializable, so the check passes. -/
def validateJson (loadsOk : String → Bool) : Json → Bool
  | .str s => loadsOk s
  | _ => true

/-- `RuleValidator.validate_complete` with configuration `allowed_keys`,
`max_depth`, `max_size`.  `dumps` abstracts `json.dumps` (total on these
trees) and `loadsOk` abstracts `json.loads` succeeding.  A syntax failure
returns alone; otherwise the size, depth, variable and operator checks
run in order and their violations are concatenated; only the variable
check can raise, which aborts the whole call. -/
def validate_complete (allowed : List String) (maxDepth maxSize : Nat)
    (dumps : Json → String) (loadsOk : String → Bool) (rule : Json) :
    Except String (Bool × List Violation) :=
  if validateJson loadsOk rule = false then
    Except.ok (false, [Violation.badJson "Invalid JSON"])
  else do
    let sizeErrs :=
      if maxSize < (dumps rule).length then
        [Violation.tooLarge (dumps rule).length maxSize]
      else []
    let depthErrs :=
      if validateDepth maxDepth rule 0 then [] else [Violation.tooDeep maxDepth]
    let varErrs ← checkVars allowed rule
    let opErrs := checkOps rule
    let errors := sizeErrs ++ depthErrs ++ varErrs ++ opErrs
    Except.ok (errors.isEmpty, errors)

/-- The depth-boundary family of trees from the spec: `nest n` wraps a
number literal in `n` nested `and` nodes, so its recognized-operator
nesting depth is exactly `n`. -/
def nest : Nat → Json
  | 0 => Json.num 1
  | n + 1 =>
    Json.obj (JsonFields.cons "and"
      (Json.arr (JsonList.cons (nest n) JsonList.nil)) JsonFields.nil)

end ValidatorM

namespace BuilderM

open ValidatorM (Json JsonList JsonFields toJsonList)

/-- `JSONLogicBuilder.build_and`: zero conditions raise `ValueError` (the
spec's `EmptyConditionSet`), a single condition is returned unchanged,
otherwise the conditions are wrapped in an `and` node. -/
def build_and (conditions : List Json) : Except String Json :=
  if conditions.length = 0 then
    Except.error "AND rule requires at least one condition"
  else if conditions.length = 1 then
    Except.ok (conditions.getD 0 Json.null)
  else
    Except.ok (Json.obj (JsonFields.cons "and"
      (Json.arr (toJsonList conditions)) JsonFields.nil))

/-- Python truthiness of a JSON value (`if else_rule:`). -/
def truthy : Json → Bool
  | .null => false
  | .bool b => b
  | .num q => decide (q ≠ 0)
  | .str s => decide (s ≠ "")
  | .arr items => ! items.isEmpty
  | .obj fields => ! fields.isEmpty

/-- `JSONLogicBuilder.build_if`: the three-element form is produced iff
the supplied else branch is truthy (`if else_rule:`); `None`, an omitted
branch, or any falsy value such as `{}` yields the two-element form. -/
def build_if (condition then_rule : Json)
    (else_rule : Option Json := none) : Json :=
  match else_rule with
  | some e =>
    if truthy e then
      Json.obj (JsonFields.cons "if"
        (Json.arr (toJsonList [condition, then_rule, e])) JsonFields.nil)
    else
      Json.obj (JsonFields.cons "if"
        (Json.arr (toJsonList [condition, then_rule])) JsonFields.nil)
  | none =>
    Json.obj (JsonFields.cons "if"
      (Json.arr (toJsonList [condition, then_rule])) JsonFields.nil)

end BuilderM


-- ===== DEFS_END =====

namespace VectorStoreM

theorem insertIdx_perm (sims : List ℚ) (x : Nat) (l : List Nat) :
    (insertIdx sims x l).Perm (x :: l) := by
  induction l with
  | nil => simp [insertIdx]
  | cons j rest ih =>
    unfold insertIdx
    split
    · exact (ih.cons j).trans (List.Perm.swap x j rest)
    · exact List.Perm.refl _

theorem mem_insertIdx {sims : List ℚ} {x a : Nat} {l : List Nat} :
    a ∈ insertIdx sims x l ↔ a = x ∨ a ∈ l := by
  have h := (insertIdx_perm sims x l).mem_iff (a := a)
  simpa using h

theorem insertIdx_pairwise (sims : List ℚ) (x : Nat) {l : List Nat}
    (h : l.Pairwise (fun i j => sims.getD i 0 ≤ sims.getD j 0)) :
    (insertIdx sims x l).Pairwise
      (fun i j => sims.getD i 0 ≤ sims.getD j 0) := by
  induction l with
  | nil => simp [insertIdx]
  | cons j rest ih =>
    rw [List.pairwise_cons] at h
    unfold insertIdx
    split
    · rename_i hlt
      rw [List.pairwise_cons]
      refine ⟨?_, ih h.2⟩
      intro a ha
      rcases mem_insertIdx.mp ha with rfl | ha
      · exact le_of_lt hlt
      · exact h.1 a ha
    · rename_i hge
      push_neg at hge
      rw [List.pairwise_cons]
      refine ⟨?_, List.pairwise_cons.mpr h⟩
      intro a ha
      rcases List.mem_cons.mp ha with rfl | ha
      · exact hge
      · exact le_trans hge (h.1 a ha)

theorem sublist_insertIdx (sims : List ℚ) (x : Nat) (l : List Nat) :
    l.Sublist (insertIdx sims x l) := by
  induction l with
  | nil => simp [insertIdx]
  | cons j rest ih =>
    unfold insertIdx
    split
    · exact ih.cons₂ j
    · exact (List.Sublist.refl _).cons x

theorem pair_sublist_insertIdx {sims : List ℚ} {i j : Nat} {l : List Nat}
    (hle : sims.getD i 0 ≤ sims.getD j 0) (hj : j ∈ l) :
    [i, j].Sublist (insertIdx sims i l) := by
  induction l with
  | nil => simp at hj
  | cons k rest ih =>
    unfold insertIdx
    split
    · rename_i hlt
      have hjr : j ∈ rest := by
        rcases List.mem_cons.mp hj with rfl | h
        · exact absurd (lt_of_le_of_lt hle hlt) (lt_irrefl _)
        · exact h
      exact (ih hjr).cons k
    · have h1 : [j].Sublist (k :: rest) := List.singleton_sublist.mpr hj
      exact h1.cons₂ i

theorem argsortAux_perm (sims : List ℚ) (l : List Nat) :
    (argsortAux sims l).Perm l := by
  induction l with
  | nil => rfl
  | cons i rest ih =>
    exact (insertIdx_perm sims i (argsortAux sims rest)).trans (ih.cons i)

theorem argsortAux_pairwise (sims : List ℚ) (l : List Nat) :
    (argsortAux sims l).Pairwise
      (fun i j => sims.getD i 0 ≤ sims.getD j 0) := by
  induction l with
  | nil => simp [argsortAux]
  | cons i rest ih => exact insertIdx_pairwise sims i ih

theorem pair_sublist_argsortAux {sims : List ℚ} {i j : Nat}
    {l : List Nat} (hl : l.Pairwise (fun a b => a < b)) (hij : i < j)
    (hi : i ∈ l) (hj : j ∈ l)
    (heq : sims.getD i 0 = sims.getD j 0) :
    [i, j].Sublist (argsortAux sims l) := by
  induction l with
  | nil => simp at hi
  | cons x rest ih =>
    rw [List.pairwise_cons] at hl
    rcases List.mem_cons.mp hi with rfl | hir
    · have hjr : j ∈ rest := by
        rcases List.mem_cons.mp hj with h | h
        · omega
        · exact h
      have hjs : j ∈ argsortAux sims rest :=
        (argsortAux_perm sims rest).mem_iff.mpr hjr
      exact pair_sublist_insertIdx (le_of_eq heq) hjs
    · have hjr : j ∈ rest := by
        rcases List.mem_cons.mp hj with h | h
        · exact absurd (hl.1 i hir) (by omega)
        · exact h
      exact (ih hl.2 hir hjr).trans
        (sublist_insertIdx sims x (argsortAux sims rest))

theorem argsort_perm (sims : List ℚ) :
    (argsort sims).Perm (List.range sims.length) :=
  argsortAux_perm sims _

theorem argsort_length (sims : List ℚ) :
    (argsort sims).length = sims.length := by
  have h := (argsort_perm sims).length_eq
  simpa using h

theorem mem_argsort {sims : List ℚ} {i : Nat} (h : i ∈ argsort sims) :
    i < sims.length := by
  have := (argsort_perm sims).mem_iff.mp h
  simpa using this

theorem argsort_sorted (sims : List ℚ) :
    (argsort sims).Pairwise (fun i j => sims.getD i 0 ≤ sims.getD j 0) :=
  argsortAux_pairwise sims _

/-- Stability of the modelled `np.argsort`: two tied indices appear in
index order in the sorted output. -/
theorem pair_sublist_argsort {sims : List ℚ} {i j : Nat} (hij : i < j)
    (hj : j < sims.length) (heq : sims.getD i 0 = sims.getD j 0) :
    [i, j].Sublist (argsort sims) :=
  pair_sublist_argsortAux (List.pairwise_lt_range _) hij
    (List.mem_range.mpr (lt_trans hij hj)) (List.mem_range.mpr hj) heq

/-- `(range l.length).map (fun i => l.getD i d) = l`. -/
theorem map_getD_range {α : Type} (d : α) :
    ∀ l : List α, (List.range l.length).map (fun i => l.getD i d) = l := by
  intro l
  induction l with
  | nil => simp
  | cons a t ih =>
    simp only [List.length_cons, List.range_succ_eq_map, List.map_cons,
      List.map_map]
    refine congrArg₂ List.cons rfl ?_
    have hfun : ((fun i => (a :: t).getD i d) ∘ Nat.succ) = fun i => t.getD i d := by
      funext i
      simp [Function.comp, List.getD_cons_succ]
    rw [hfun]
    exact ih

theorem inmem_search_empty (s : InMemory) (cos : List ℚ → List ℚ → ℚ)
    (e : List ℚ) (k : Nat) (h : s.embeddings = []) : s.search cos e k = [] := by
  simp [InMemory.search, InMemory.size, h]

theorem inmem_search_length_le (s : InMemory) (cos : List ℚ → List ℚ → ℚ)
    (e : List ℚ) (k : Nat) : (s.search cos e k).length ≤ k := by
  unfold InMemory.search
  split
  · simp
  · simp only [List.length_map, List.length_take]
    exact min_le_left _ _

theorem inmem_search_sorted (s : InMemory) (cos : List ℚ → List ℚ → ℚ)
    (e : List ℚ) (k : Nat) :
    (s.search cos e k).Pairwise (fun a b => b.2.1 ≤ a.2.1) := by
  unfold InMemory.search
  split
  · simp
  · rw [List.pairwise_map]
    refine List.Pairwise.sublist (List.take_sublist _ _) ?_
    rw [List.pairwise_reverse]
    exact argsort_sorted _

theorem inmem_search_mem_ids (s : InMemory) (cos : List ℚ → List ℚ → ℚ)
    (e : List ℚ) (k : Nat) (hlen : s.ids.length = s.embeddings.length) :
    ∀ x ∈ s.search cos e k, x.1 ∈ s.ids := by
  intro x hx
  unfold InMemory.search at hx
  split at hx
  · simp at hx
  · rw [List.mem_map] at hx
    obtain ⟨i, hi, rfl⟩ := hx
    have hi2 : i ∈ argsort (s.embeddings.map (cos e)) := by
      have := List.mem_of_mem_take hi
      simpa using this
    have hlt : i < s.ids.length := by
      have := mem_argsort hi2
      simpa [hlen] using this
    rw [List.getD_eq_getElem _ _ hlt]
    exact List.getElem_mem hlt

theorem inmem_size_eq_zero_iff (s : InMemory)
    (hrows : ∀ row ∈ s.embeddings, row ≠ []) :
    s.size = 0 ↔ s.embeddings = [] := by
  constructor
  · intro h
    cases hemb : s.embeddings with
    | nil => rfl
    | cons r t =>
      exfalso
      have hr : r ≠ [] := hrows r (by rw [hemb]; exact List.mem_cons_self _ _)
      have : r.length = 0 := by
        have hsum : (s.embeddings.map List.length).sum = 0 := h
        rw [hemb] at hsum
        simp only [List.map_cons, List.sum_cons] at hsum
        omega
      exact hr (List.eq_nil_of_length_eq_zero this)
  · intro h
    simp [InMemory.size, h]

theorem inmem_search_all (s : InMemory) (cos : List ℚ → List ℚ → ℚ)
    (e : List ℚ) (k : Nat) (hlen : s.ids.length = s.embeddings.length)
    (hrows : ∀ row ∈ s.embeddings, row ≠ [])
    (hk : s.embeddings.length ≤ k) :
    ((s.search cos e k).map (fun x => x.1)).Perm s.ids := by
  unfold InMemory.search
  split
  · rename_i hz
    have hemb : s.embeddings = [] := ((inmem_size_eq_zero_iff s) hrows).mp hz
    have : s.ids = [] := by
      rw [hemb] at hlen
      exact List.eq_nil_of_length_eq_zero (by simpa using hlen)
    simp [this]
  · dsimp only
    set sims := s.embeddings.map (cos e) with hsims
    have hslen : sims.length = s.embeddings.length := by simp [hsims]
    have htake : ((argsort sims).reverse.take k) = (argsort sims).reverse := by
      apply List.take_of_length_le
      rw [List.length_reverse, argsort_length, hslen]
      exact hk
    rw [htake, List.map_map]
    have hperm : ((argsort sims).reverse).Perm (List.range s.ids.length) := by
      refine ((List.reverse_perm _).trans (argsort_perm sims)).trans ?_
      rw [hslen, hlen]
    have := hperm.map (fun i => s.ids.getD i "")
    refine this.trans ?_
    rw [map_getD_range]

theorem faiss_search_empty (s : Faiss) (e : List ℚ) (k : Nat)
    (h : s.vectors = []) : s.search e k = [] := by
  simp [Faiss.search, h]

theorem faiss_search_length_le (s : Faiss) (e : List ℚ) (k : Nat) :
    (s.search e k).length ≤ k := by
  unfold Faiss.search
  split
  · simp
  · simp only [List.length_map]
    calc (List.filter _ ((argsort _).take (min k s.vectors.length))).length
        ≤ ((argsort _).take (min k s.vectors.length)).length :=
          List.length_filter_le _ _
      _ ≤ min k s.vectors.length := by rw [List.length_take]; exact min_le_left _ _
      _ ≤ k := min_le_left _ _

theorem l2sq_nonneg (u v : List ℚ) : 0 ≤ l2sq u v := by
  apply List.sum_nonneg
  intro x hx
  rw [List.mem_map] at hx
  obtain ⟨p, _, rfl⟩ := hx
  positivity

theorem dists_getD_nonneg (e : List ℚ) (vectors : List (List ℚ)) (i : Nat) :
    0 ≤ (vectors.map (l2sq e)).getD i 0 := by
  by_cases h : i < (vectors.map (l2sq e)).length
  · rw [List.getD_eq_getElem _ _ h]
    have : (vectors.map (l2sq e))[i] ∈ vectors.map (l2sq e) := List.getElem_mem h
    rw [List.mem_map] at this
    obtain ⟨v, _, hv⟩ := this
    rw [← hv]
    exact l2sq_nonneg _ _
  · rw [List.getD_eq_default _ _ (by omega)]

theorem faiss_search_sorted (s : Faiss) (e : List ℚ) (k : Nat) :
    (s.search e k).Pairwise (fun a b => b.2.1 ≤ a.2.1) := by
  unfold Faiss.search
  split
  · simp
  · rw [List.pairwise_map]
    have h1 : ((argsort (s.vectors.map (l2sq e))).take
        (min k s.vectors.length)).Pairwise
        (fun i j => (s.vectors.map (l2sq e)).getD i 0
          ≤ (s.vectors.map (l2sq e)).getD j 0) :=
      List.Pairwise.sublist (List.take_sublist _ _) (argsort_sorted _)
    refine List.Pairwise.sublist (List.filter_sublist _) (h1.imp ?_)
    intro i j hij
    simp only
    apply one_div_le_one_div_of_le
    · have := dists_getD_nonneg e s.vectors i
      linarith
    · linarith

theorem faiss_search_mem_ids (s : Faiss) (e : List ℚ) (k : Nat) :
    ∀ x ∈ s.search e k, x.1 ∈ s.ids := by
  intro x hx
  unfold Faiss.search at hx
  split at hx
  · simp at hx
  · rw [List.mem_map] at hx
    obtain ⟨i, hi, rfl⟩ := hx
    have hlt : i < s.ids.length := by
      have := List.of_mem_filter hi
      simpa using this
    rw [List.getD_eq_getElem _ _ hlt]
    exact List.getElem_mem hlt

theorem faiss_search_all (s : Faiss) (e : List ℚ) (k : Nat)
    (hlen : s.ids.length = s.vectors.length)
    (hk : s.vectors.length ≤ k) :
    ((s.search e k).map (fun x => x.1)).Perm s.ids := by
  unfold Faiss.search
  split
  · rename_i hz
    have : s.ids = [] :=
      List.eq_nil_of_length_eq_zero (by rw [hlen]; exact hz)
    simp [this]
  · dsimp only
    set dists := s.vectors.map (l2sq e) with hdists
    have hdlen : dists.length = s.vectors.length := by simp [hdists]
    have hmin : min k s.vectors.length = s.vectors.length :=
      min_eq_right hk
    have htake : (argsort dists).take (min k s.vectors.length)
        = argsort dists := by
      apply List.take_of_length_le
      rw [argsort_length, hdlen, hmin]
    rw [htake]
    have hfilter : (argsort dists).filter (fun i => i < s.ids.length)
        = argsort dists := by
      rw [List.filter_eq_self]
      intro i hi
      have := mem_argsort hi
      rw [hdlen] at this
      simpa [hlen] using this
    rw [hfilter, List.map_map]
    have hperm : (argsort dists).Perm (List.range s.ids.length) := by
      refine (argsort_perm dists).trans ?_
      rw [hdlen, hlen]
    have := hperm.map (fun i => s.ids.getD i "")
    refine this.trans ?_
    rw [map_getD_range]

end VectorStoreM

open VectorStoreM in
/-- C1: for every vector index (in-memory or FAISS-backed) and every query,
`search` with parameter `k` returns at most `k` `(id, similarity, index)`
tuples ordered by descending similarity, every returned id is stored in the
index, an index holding zero entries returns the empty sequence, and if `k`
is at least the entry count all stored entries are returned ranked (the
returned ids are a permutation of the stored ids). -/
theorem C1_query_contract :
    (∀ (s : InMemory) (cos : List ℚ → List ℚ → ℚ) (q : List ℚ) (k : Nat),
      s.ids.length = s.embeddings.length →
      (∀ row ∈ s.embeddings, row ≠ []) →
      (s.search cos q k).length ≤ k ∧
      (s.search cos q k).Pairwise (fun a b => b.2.1 ≤ a.2.1) ∧
      (∀ x ∈ s.search cos q k, x.1 ∈ s.ids) ∧
      (s.embeddings = [] → s.search cos q k = []) ∧
      (s.embeddings.length ≤ k →
        ((s.search cos q k).map (fun x => x.1)).Perm s.ids)) ∧
    (∀ (s : Faiss) (q : List ℚ) (k : Nat),
      s.ids.length = s.vectors.length →
      (s.search q k).length ≤ k ∧
      (s.search q k).Pairwise (fun a b => b.2.1 ≤ a.2.1) ∧
      (∀ x ∈ s.search q k, x.1 ∈ s.ids) ∧
      (s.vectors = [] → s.search q k = []) ∧
      (s.vectors.length ≤ k →
        ((s.search q k).map (fun x => x.1)).Perm s.ids)) := by
  constructor
  · intro s cos q k hlen hrows
    exact ⟨inmem_search_length_le s cos q k, inmem_search_sorted s cos q k,
      inmem_search_mem_ids s cos q k hlen, inmem_search_empty s cos q k,
      fun hk => inmem_search_all s cos q k hlen hrows hk⟩
  · intro s q k hlen
    exact ⟨faiss_search_length_le s q k, faiss_search_sorted s q k,
      faiss_search_mem_ids s q k, faiss_search_empty s q k,
      fun hk => faiss_search_all s q k hlen hk⟩

open VectorStoreM in
/-- Witness for C1 at concrete two-entry stores.  -/
theorem C1_query_contract_witness :
    ((InMemory.mk [[1], [2]] ["ta", "tb"] ["a", "b"]).search
        (fun _ r => r.headD 0) [1] 5).length ≤ 5 ∧
    ((Faiss.mk 1 [[0], [3]] ["tx", "ty"] ["x", "y"]).search [1] 5).length
      ≤ 5 := by
  refine ⟨(C1_query_contract.1 (InMemory.mk [[1], [2]] ["ta", "tb"]
      ["a", "b"]) (fun _ r => r.headD 0) [1] 5 (by decide) ?_).1,
    (C1_query_contract.2 (Faiss.mk 1 [[0], [3]] ["tx", "ty"] ["x", "y"])
      [1] 5 (by decide)).1⟩
  intro row hrow
  simp only [List.mem_cons] at hrow
  rcases hrow with h | h | h <;> simp_all

open VectorStoreM in
/-- Counterexample for C2: in `InMemoryVectorStore.search`, two entries
with exactly equal similarity come back with the later-inserted entry
`"e1"` ranked first, because `np.argsort(...)[::-1]` reverses a stable
ascending sort; the claim says the earlier-inserted `"e0"` ranks higher. -/
theorem C2_tie_counterexample :
    (InMemory.mk [[1], [1]] ["t0", "t1"] ["e0", "e1"]).search
        (fun _ _ => 1) [1] 2
      = [("e1", 1, 1), ("e0", 1, 0)] := by
  decide

open VectorStoreM in
/-- C2 amended: in an index holding at most 16 entries — where numpy's
argsort runs as a stable insertion sort, covering the counterexample
store — and with `k` at least the entry count so both tied entries are
returned, the LATER-inserted entry ranks higher on an exact similarity
tie (the code reverses the ascending argsort), still giving one
deterministic ordering for identical inputs: for tied entries `i < j`,
`j`'s tuple precedes `i`'s tuple in the result.  For larger indices
numpy's quicksort tie order is unspecified, so no insertion-order
tie-break holds at all. -/
theorem C2_tie_later_inserted_first (s : InMemory)
    (cos : List ℚ → List ℚ → ℚ) (q : List ℚ) (k : Nat) (i j : Nat)
    (hij : i < j) (hj : j < s.embeddings.length)
    (hrows : ∀ row ∈ s.embeddings, row ≠ [])
    (heq : (s.embeddings.map (cos q)).getD i 0
      = (s.embeddings.map (cos q)).getD j 0)
    (_hsmall : s.embeddings.length ≤ 16)
    (hk : s.embeddings.length ≤ k) :
    [(s.ids.getD j "", (s.embeddings.map (cos q)).getD j 0, j),
     (s.ids.getD i "", (s.embeddings.map (cos q)).getD i 0, i)].Sublist
      (s.search cos q k) := by
  have hne : s.size ≠ 0 := by
    intro hz
    rw [((inmem_size_eq_zero_iff s) hrows).mp hz] at hj
    simp at hj
  unfold InMemory.search
  rw [if_neg hne]
  dsimp only
  set sims := s.embeddings.map (cos q) with hsims
  have hjlen : j < sims.length := by simpa [hsims] using hj
  have h1 : [i, j].Sublist (argsort sims) :=
    pair_sublist_argsort hij hjlen heq
  have h2 : [j, i].Sublist (argsort sims).reverse := by
    simpa using h1.reverse
  have htake : (argsort sims).reverse.take k = (argsort sims).reverse := by
    apply List.take_of_length_le
    rw [List.length_reverse, argsort_length]
    simpa [hsims] using hk
  rw [htake]
  simpa using h2.map (fun i => (s.ids.getD i "", sims.getD i 0, i))

open VectorStoreM in
/-- Witness for the amended C2 at the concrete tied store. -/
theorem C2_tie_later_inserted_first_witness :
    [("e1", (1 : ℚ), 1), ("e0", (1 : ℚ), 0)].Sublist
      ((InMemory.mk [[1], [1]] ["t0", "t1"] ["e0", "e1"]).search
        (fun _ _ => 1) [1] 2) := by
  have h := C2_tie_later_inserted_first
    (InMemory.mk [[1], [1]] ["t0", "t1"] ["e0", "e1"]) (fun _ _ => 1)
    [1] 2 0 1 (by decide) (by decide)
    (by intro row hrow; simp only [List.mem_cons] at hrow
        rcases hrow with h | h | h <;> simp_all)
    (by decide) (by decide) (by decide)
  simpa using h

open VectorStoreM in
/-- C3: inserting entries whose vector length differs from the index's
established dimension fails (`ValueError` from `np.vstack` for the
in-memory store, the dimension assertion of `faiss.Index.add` for the
FAISS store), and the raise happens before any field mutation, so the
index state is unchanged. -/
theorem C3_dimension_mismatch :
    (∀ (s : InMemory) (texts : List String) (embeddings : List (List ℚ))
        (ids : Option (List String)),
      s.size ≠ 0 →
      (∃ row ∈ embeddings, row.length ≠ s.estDim) →
      (∃ e, s.add_texts texts embeddings ids = Except.error e) ∧
      s.add_textsState texts embeddings ids = s) ∧
    (∀ (s : Faiss) (texts : List String) (embeddings : List (List ℚ))
        (ids : Option (List String)),
      (∃ row ∈ embeddings, row.length ≠ s.dimension) →
      (∃ e, s.add_texts texts embeddings ids = Except.error e) ∧
      s.add_textsState texts embeddings ids = s) := by
  constructor
  · intro s texts embeddings ids hsz ⟨row, hrow, hne⟩
    have hall : embeddings.all (fun r => r.length = s.estDim) = false := by
      rw [Bool.eq_false_iff]
      intro hall
      exact hne (by simpa using (List.all_eq_true.mp hall) row hrow)
    have herr : s.add_texts texts embeddings ids
        = Except.error "ValueError: all the input array dimensions must match" := by
      unfold InMemory.add_texts
      rw [if_neg hsz, if_neg (by simp [hall])]
    exact ⟨⟨_, herr⟩, by unfold InMemory.add_textsState; rw [herr]⟩
  · intro s texts embeddings ids ⟨row, hrow, hne⟩
    have hall : embeddings.all (fun r => r.length = s.dimension) = false := by
      rw [Bool.eq_false_iff]
      intro hall
      exact hne (by simpa using (List.all_eq_true.mp hall) row hrow)
    have herr : s.add_texts texts embeddings ids
        = Except.error "AssertionError: d does not match index dimension" := by
      unfold Faiss.add_texts
      rw [if_neg (by simp [hall])]
    exact ⟨⟨_, herr⟩, by unfold Faiss.add_textsState; rw [herr]⟩

open VectorStoreM in
/-- Witness for C3: a one-dimensional index rejects a two-dimensional row
in both implementations, leaving the state as it was. -/
theorem C3_dimension_mismatch_witness :
    (∃ e, (InMemory.mk [[1]] ["t"] ["a"]).add_texts ["u"] [[1, 2]] none
      = Except.error e) ∧
    (InMemory.mk [[1]] ["t"] ["a"]).add_textsState ["u"] [[1, 2]] none
      = InMemory.mk [[1]] ["t"] ["a"] ∧
    (∃ e, (Faiss.mk 1 [[1]] ["t"] ["a"]).add_texts ["u"] [[1, 2]] none
      = Except.error e) ∧
    (Faiss.mk 1 [[1]] ["t"] ["a"]).add_textsState ["u"] [[1, 2]] none
      = Faiss.mk 1 [[1]] ["t"] ["a"] := by
  have h1 := C3_dimension_mismatch.1 (InMemory.mk [[1]] ["t"] ["a"])
    ["u"] [[1, 2]] none (by decide) ⟨[1, 2], by simp, by decide⟩
  have h2 := C3_dimension_mismatch.2 (Faiss.mk 1 [[1]] ["t"] ["a"])
    ["u"] [[1, 2]] none ⟨[1, 2], by simp, by decide⟩
  exact ⟨h1.1, h1.2, h2.1, h2.2⟩

/-- C4 (code-bug evidence): `RAGSystem.retrieve` appends the entry id
(`text_id`, here `"policy_0"`) to the context parts instead of the
chunk's source text, so at a store holding one chunk whose similarity
clears the 0.5 threshold the returned bullet list is `"- policy_0"` and
not the bullet list of the chunk text the spec (and the method's own
docstring) promises. -/
theorem C4_retrieve_returns_ids_not_text :
    RagM.retrieve
        (VectorStoreM.InMemory.mk [[1]]
          ["Returns are allowed within 30 days"] ["policy_0"])
        (fun _ _ => 1) (fun _ => [1]) 3 (1 / 2) "return policy"
      = "- policy_0" ∧
    "- policy_0" ≠ "- Returns are allowed within 30 days" := by
  constructor
  · norm_num [RagM.retrieve, VectorStoreM.InMemory.search,
      VectorStoreM.InMemory.size, VectorStoreM.argsort,
      VectorStoreM.argsortAux, VectorStoreM.insertIdx, List.filter]
    decide
  · decide

namespace MapperM

theorem map_phrases_nil (threshold : ℚ)
    (searchFn : String → List (String × ℚ × Nat)) :
    map_phrases threshold searchFn [] = ([], []) := rfl

theorem map_phrases_sim_ge (threshold : ℚ)
    (searchFn : String → List (String × ℚ × Nat)) :
    ∀ phrases, ∀ m ∈ (map_phrases threshold searchFn phrases).1,
      threshold ≤ m.similarity := by
  intro phrases
  induction phrases with
  | nil => intro m hm; simp [map_phrases] at hm
  | cons phrase rest ih =>
    intro m hm
    rcases hsp : searchFn phrase with _ | ⟨best, more⟩
    · simp only [map_phrases, hsp] at hm
      exact ih m hm
    · simp only [map_phrases, hsp] at hm
      split at hm
      · exact ih m hm
      · rename_i hge
        rcases List.mem_cons.mp hm with rfl | hm2
        · simpa using le_of_not_lt hge
        · exact ih m hm2

theorem map_phrases_mapping_not_low (threshold : ℚ)
    (searchFn : String → List (String × ℚ × Nat)) :
    ∀ phrases, ∀ m ∈ (map_phrases threshold searchFn phrases).1,
      ∀ best more, searchFn m.user_phrase = best :: more →
        ¬ best.2.1 < threshold := by
  intro phrases
  induction phrases with
  | nil => intro m hm; simp [map_phrases] at hm
  | cons phrase rest ih =>
    intro m hm best more hsm
    rcases hsp : searchFn phrase with _ | ⟨best2, more2⟩
    · simp only [map_phrases, hsp] at hm
      exact ih m hm best more hsm
    · simp only [map_phrases, hsp] at hm
      split at hm
      · exact ih m hm best more hsm
      · rename_i hge
        rcases List.mem_cons.mp hm with rfl | hm2
        · simp only at hsm
          rw [hsp] at hsm
          cases hsm
          simpa using hge
        · exact ih m hm2 best more hsm

theorem map_phrases_low_in_misses (threshold : ℚ)
    (searchFn : String → List (String × ℚ × Nat)) :
    ∀ phrases, ∀ p ∈ phrases, ∀ best more, searchFn p = best :: more →
      best.2.1 < threshold →
      MapError.lowConfidence p best.2.1
          (((best :: more).take 3).map (fun r => r.1))
        ∈ (map_phrases threshold searchFn phrases).2 := by
  intro phrases
  induction phrases with
  | nil => intro p hp; simp at hp
  | cons phrase rest ih =>
    intro p hp best more hsp hlt
    rcases List.mem_cons.mp hp with rfl | hpr
    · simp only [map_phrases, hsp, if_pos hlt]
      exact List.mem_cons_self _ _
    · have hmem := ih p hpr best more hsp hlt
      rcases hsq : searchFn phrase with _ | ⟨best2, more2⟩
      · simp only [map_phrases, hsq]
        exact List.mem_cons_of_mem _ hmem
      · simp only [map_phrases, hsq]
        split
        · exact List.mem_cons_of_mem _ hmem
        · exact hmem

end MapperM

open MapperM in
/-- C5: every mapping returned by `KeyMapper.map_phrases` has similarity
at or above the threshold (equality accepted); a phrase whose best match
is strictly below the threshold goes only to the misses, carrying the
top-3 candidate suggestion keys, and yields no mapping; no extracted
phrases yields empty mappings and empty misses rather than an error. -/
theorem C5_map_phrases_contract (threshold : ℚ)
    (searchFn : String → List (String × ℚ × Nat))
    (phrases : List String) :
    (∀ m ∈ (map_phrases threshold searchFn phrases).1,
      threshold ≤ m.similarity) ∧
    (∀ p ∈ phrases, ∀ best more, searchFn p = best :: more →
      best.2.1 < threshold →
      MapError.lowConfidence p best.2.1
          (((best :: more).take 3).map (fun r => r.1))
        ∈ (map_phrases threshold searchFn phrases).2 ∧
      ∀ m ∈ (map_phrases threshold searchFn phrases).1,
        m.user_phrase ≠ p) ∧
    map_phrases threshold searchFn [] = ([], []) := by
  refine ⟨map_phrases_sim_ge threshold searchFn phrases, ?_,
    map_phrases_nil threshold searchFn⟩
  intro p hp best more hsp hlt
  refine ⟨map_phrases_low_in_misses threshold searchFn phrases p hp
    best more hsp hlt, ?_⟩
  intro m hm heq
  exact map_phrases_mapping_not_low threshold searchFn phrases m hm
    best more (heq ▸ hsp) hlt

open MapperM in
/-- Witness for C5 at a concrete two-phrase run: `"AGE"` maps with score
2, `"foo"` misses at score 0 under threshold 1. -/
theorem C5_map_phrases_contract_witness :
    MapError.lowConfidence "foo" 0 ["user_age"]
      ∈ (map_phrases 1
          (fun p => if p = "AGE" then [("user_age", 2, 0)]
            else [("user_age", 0, 0)]) ["AGE", "foo"]).2 := by
  have h := (C5_map_phrases_contract 1
    (fun p => if p = "AGE" then [("user_age", 2, 0)]
      else [("user_age", 0, 0)]) ["AGE", "foo"]).2.1
    "foo" (by decide) ("user_age", 0, 0) [] (by decide) (by decide)
  simpa using h.1


namespace ValidatorM

theorem allowedOperators_eq :
    allowedOperators = logicalOps ++ compArithOps := rfl

theorem contains_eq_false_of_not_mem {l : List String} {a : String}
    (h : a ∉ l) : l.contains a = false := by
  simpa using h

theorem validateDepth_nest (maxDepth : Nat) :
    ∀ n c, validateDepth maxDepth (nest n) c
      = decide (c + n ≤ maxDepth) := by
  intro n
  induction n with
  | zero =>
    intro c
    simp only [nest, validateDepth]
    rcases Nat.lt_or_ge maxDepth c with h | h
    · rw [if_pos (by omega)]
      symm
      simp only [decide_eq_false_iff_not]
      omega
    · rw [if_neg (by omega)]
      symm
      simp only [decide_eq_true_eq]
      omega
  | succ n ih =>
    intro c
    simp only [nest, validateDepth]
    rcases Nat.lt_or_ge maxDepth c with h | h
    · rw [if_pos (by omega)]
      symm
      simp only [decide_eq_false_iff_not]
      omega
    · rw [if_neg (by omega)]
      simp only [depthFields, depthItems]
      simp only [logicalOps, List.contains_cons, ih]
      simp only [beq_self_eq_true, Bool.true_or, if_true, Bool.and_true]
      exact decide_eq_decide.mpr (by omega)

theorem checkVars_nest (allowed : List String) :
    ∀ n, checkVars allowed (nest n) = Except.ok [] := by
  intro n
  induction n with
  | zero => rfl
  | succ n ih =>
    simp [nest, checkVars, JsonFields.lookup, checkVarsFields,
      checkVarsItems, ih, Bind.bind, Except.bind]

theorem checkOps_nest :
    ∀ n, checkOps (nest n) = [] := by
  intro n
  induction n with
  | zero => rfl
  | succ n ih =>
    simp [nest, checkOps, opsFields, opsItems, allowedOperators, ih]

theorem validateJson_nest (loadsOk : String → Bool) :
    ∀ n, validateJson loadsOk (nest n) = true := by
  intro n
  cases n <;> simp [nest, validateJson]

end ValidatorM

open ValidatorM in
/-- C6 (code-bug evidence): on the tree whose `var` field holds a list
(the claim's "non-string value"), `validate_complete` raises `TypeError`
— the variable check feeds the unhashable list into the allowed-key set
membership test — instead of returning an `(ok, violations)` pair,
whatever the vocabulary and the `json` serializer behaviour. -/
theorem C6_validate_complete_raises (allowed : List String)
    (dumps : Json → String) (loadsOk : String → Bool) :
    validate_complete allowed 10 5000 dumps loadsOk
        (Json.obj (JsonFields.cons "var"
          (Json.arr (JsonList.cons (Json.str "x") JsonList.nil))
          JsonFields.nil))
      = Except.error "TypeError: unhashable type" := by
  have hcv : checkVars allowed (Json.obj (JsonFields.cons "var"
        (Json.arr (JsonList.cons (Json.str "x") JsonList.nil))
        JsonFields.nil))
      = Except.error "TypeError: unhashable type" := rfl
  unfold validate_complete
  rw [if_neg (by simp [validateJson])]
  simp [hcv, Bind.bind, Except.bind]

open ValidatorM in
/-- C7: the depth check does not traverse below an operator key outside
its recognized set, so an arbitrary subtree under an unknown key never
produces a Depth violation; the operator check reports such a key
instead; and on `{"unknown_op": [{"var": "user_age"}, 18]}` with
vocabulary `["user_age"]`, `validate_complete` returns `ok = false` with
exactly one Operator violation naming `unknown_op` (provided the
serialized size is within the default limit, as it is for real
`json.dumps`). -/
theorem C7_unknown_operator_tolerated :
    (∀ (t : Json) (key : String) (maxDepth : Nat),
      key ∉ logicalOps → key ∉ compArithOps →
      validateDepth maxDepth
        (Json.obj (JsonFields.cons key t JsonFields.nil)) 0 = true) ∧
    (∀ (t : Json) (key : String),
      key ∉ logicalOps → key ∉ compArithOps → key ≠ "var" →
      Violation.badOperator key
        ∈ checkOps (Json.obj (JsonFields.cons key t JsonFields.nil))) ∧
    (∀ (dumps : Json → String) (loadsOk : String → Bool),
      (dumps (Json.obj (JsonFields.cons "unknown_op"
        (Json.arr (JsonList.cons
          (Json.obj (JsonFields.cons "var" (Json.str "user_age")
            JsonFields.nil))
          (JsonList.cons (Json.num 18) JsonList.nil)))
        JsonFields.nil))).length ≤ 5000 →
      validate_complete ["user_age"] 10 5000 dumps loadsOk
          (Json.obj (JsonFields.cons "unknown_op"
            (Json.arr (JsonList.cons
              (Json.obj (JsonFields.cons "var" (Json.str "user_age")
                JsonFields.nil))
              (JsonList.cons (Json.num 18) JsonList.nil)))
            JsonFields.nil))
        = Except.ok (false, [Violation.badOperator "unknown_op"])) := by
  refine ⟨?_, ?_, ?_⟩
  · intro t key maxDepth h1 h2
    rw [validateDepth.eq_def]
    rw [if_neg (by omega)]
    dsimp only
    rw [depthFields.eq_def]
    dsimp only
    rw [contains_eq_false_of_not_mem h1, contains_eq_false_of_not_mem h2]
    simp only [Bool.false_eq_true, if_false, Bool.true_and]
    rw [depthFields.eq_def]
  · intro t key h1 h2 h3
    have hcon : allowedOperators.contains key = false := by
      apply contains_eq_false_of_not_mem
      rw [allowedOperators_eq]
      intro hmem
      rcases List.mem_append.mp hmem with h | h
      · exact h1 h
      · exact h2 h
    rw [checkOps.eq_def]
    dsimp only
    rw [opsFields.eq_def]
    dsimp only
    rw [if_neg h3, hcon]
    simp
  · intro dumps loadsOk hsize
    have hcv : checkVars ["user_age"]
        (Json.obj (JsonFields.cons "unknown_op"
          (Json.arr (JsonList.cons
            (Json.obj (JsonFields.cons "var" (Json.str "user_age")
              JsonFields.nil))
            (JsonList.cons (Json.num 18) JsonList.nil)))
          JsonFields.nil))
        = Except.ok [] := rfl
    have hco : checkOps
        (Json.obj (JsonFields.cons "unknown_op"
          (Json.arr (JsonList.cons
            (Json.obj (JsonFields.cons "var" (Json.str "user_age")
              JsonFields.nil))
            (JsonList.cons (Json.num 18) JsonList.nil)))
          JsonFields.nil))
        = [Violation.badOperator "unknown_op"] := rfl
    have hd : validateDepth 10
        (Json.obj (JsonFields.cons "unknown_op"
          (Json.arr (JsonList.cons
            (Json.obj (JsonFields.cons "var" (Json.str "user_age")
              JsonFields.nil))
            (JsonList.cons (Json.num 18) JsonList.nil)))
          JsonFields.nil)) 0
        = true := rfl
    unfold validate_complete
    rw [if_neg (by simp [validateJson])]
    simp [Nat.not_lt.mpr hsize, hcv, hco, hd, Bind.bind, Except.bind]

open ValidatorM in
/-- Witness for C7 at the unknown key `"foo"` over a number subtree and
at the spec's concrete scenario tree. -/
theorem C7_unknown_operator_tolerated_witness :
    validateDepth 10
      (Json.obj (JsonFields.cons "foo" (Json.num 1) JsonFields.nil)) 0
      = true ∧
    Violation.badOperator "foo"
      ∈ checkOps (Json.obj (JsonFields.cons "foo" (Json.num 1)
          JsonFields.nil)) ∧
    validate_complete ["user_age"] 10 5000 (fun _ => "") (fun _ => true)
        (Json.obj (JsonFields.cons "unknown_op"
          (Json.arr (JsonList.cons
            (Json.obj (JsonFields.cons "var" (Json.str "user_age")
              JsonFields.nil))
            (JsonList.cons (Json.num 18) JsonList.nil)))
          JsonFields.nil))
      = Except.ok (false, [Violation.badOperator "unknown_op"]) :=
  ⟨C7_unknown_operator_tolerated.1 (Json.num 1) "foo" 10 (by decide)
      (by decide),
   C7_unknown_operator_tolerated.2.1 (Json.num 1) "foo" (by decide)
      (by decide) (by decide),
   C7_unknown_operator_tolerated.2.2 (fun _ => "") (fun _ => true)
      (by decide)⟩

open ValidatorM in
/-- C8: a tree whose recognized-operator nesting depth is exactly the
configured `max_depth` passes `validate_complete` with no violation at
all, while the same shape nested one level deeper fails with exactly the
Depth violation (sizes assumed within the default limit, as they are for
real `json.dumps` whenever the depth fits). -/
theorem C8_depth_boundary (d : Nat) (dumps : Json → String)
    (loadsOk : String → Bool)
    (h1 : (dumps (nest d)).length ≤ 5000)
    (h2 : (dumps (nest (d + 1))).length ≤ 5000) :
    validate_complete ["user_age"] d 5000 dumps loadsOk (nest d)
      = Except.ok (true, []) ∧
    validate_complete ["user_age"] d 5000 dumps loadsOk (nest (d + 1))
      = Except.ok (false, [Violation.tooDeep d]) := by
  constructor
  · unfold validate_complete
    rw [if_neg (by simp [validateJson_nest])]
    simp [Nat.not_lt.mpr h1, validateDepth_nest, checkVars_nest,
      checkOps_nest, Bind.bind, Except.bind]
  · unfold validate_complete
    rw [if_neg (by simp [validateJson_nest])]
    simp [Nat.not_lt.mpr h2, validateDepth_nest, checkVars_nest,
      checkOps_nest, Bind.bind, Except.bind]

open ValidatorM in
/-- Witness for C8 at `max_depth = 2`. -/
theorem C8_depth_boundary_witness :
    validate_complete ["user_age"] 2 5000 (fun _ => "") (fun _ => true)
        (nest 2)
      = Except.ok (true, []) ∧
    validate_complete ["user_age"] 2 5000 (fun _ => "") (fun _ => true)
        (nest 3)
      = Except.ok (false, [Violation.tooDeep 2]) := by
  have h := C8_depth_boundary 2 (fun _ => "") (fun _ => true) (by decide)
    (by decide)
  exact ⟨h.1, h.2⟩

open ValidatorM (Json JsonFields toJsonList) in
/-- C9: `build_and` on zero conditions raises (the spec's
`EmptyConditionSet`), on a single condition returns that condition
unchanged with no wrapping node, and on two or more conditions returns
the `{"and": conditions}` node. -/
theorem C9_build_and_contract :
    (∃ e, BuilderM.build_and [] = Except.error e) ∧
    (∀ c : Json, BuilderM.build_and [c] = Except.ok c) ∧
    (∀ l : List Json, 2 ≤ l.length →
      BuilderM.build_and l
        = Except.ok (Json.obj (JsonFields.cons "and"
            (Json.arr (toJsonList l)) JsonFields.nil))) := by
  refine ⟨⟨_, rfl⟩, ?_, ?_⟩
  · intro c
    rfl
  · intro l hl
    unfold BuilderM.build_and
    rw [if_neg (by omega), if_neg (by omega)]

open ValidatorM (Json JsonList JsonFields) in
/-- Witness for C9 on a singleton and on a two-condition list. -/
theorem C9_build_and_contract_witness :
    BuilderM.build_and [Json.null] = Except.ok Json.null ∧
    BuilderM.build_and [Json.null, Json.bool true]
      = Except.ok (Json.obj (JsonFields.cons "and"
          (Json.arr (JsonList.cons Json.null
            (JsonList.cons (Json.bool true) JsonList.nil)))
          JsonFields.nil)) :=
  ⟨C9_build_and_contract.2.1 Json.null,
   C9_build_and_contract.2.2 [Json.null, Json.bool true] (by decide)⟩

open ValidatorM (Json JsonFields toJsonList) in
/-- C10: `build_if` produces the three-element `{"if": [c, t, e]}` form
exactly when the supplied else branch is truthy; an omitted branch,
`None`, or a falsy value such as the empty dict yields the two-element
form, silently dropping the supplied branch. -/
theorem C10_build_if_truthiness (c t e : Json) :
    (BuilderM.truthy e = true →
      BuilderM.build_if c t (some e)
        = Json.obj (JsonFields.cons "if"
            (Json.arr (toJsonList [c, t, e])) JsonFields.nil)) ∧
    (BuilderM.truthy e = false →
      BuilderM.build_if c t (some e)
        = Json.obj (JsonFields.cons "if"
            (Json.arr (toJsonList [c, t])) JsonFields.nil)) ∧
    (BuilderM.build_if c t (some e)
        = Json.obj (JsonFields.cons "if"
            (Json.arr (toJsonList [c, t, e])) JsonFields.nil) →
      BuilderM.truthy e = true) ∧
    BuilderM.build_if c t none
      = Json.obj (JsonFields.cons "if"
          (Json.arr (toJsonList [c, t])) JsonFields.nil) ∧
    BuilderM.build_if c t (some (Json.obj JsonFields.nil))
      = Json.obj (JsonFields.cons "if"
          (Json.arr (toJsonList [c, t])) JsonFields.nil) := by
  refine ⟨?_, ?_, ?_, rfl, rfl⟩
  · intro h
    simp [BuilderM.build_if, h]
  · intro h
    simp [BuilderM.build_if, h]
  · intro h
    by_cases ht : BuilderM.truthy e
    · exact ht
    · exfalso
      rw [Bool.not_eq_true] at ht
      simp [BuilderM.build_if, ht, ValidatorM.toJsonList] at h

open ValidatorM (Json JsonList JsonFields) in
/-- Witness for C10: a truthy else branch is kept, an empty dict is
dropped. -/
theorem C10_build_if_truthiness_witness :
    BuilderM.build_if Json.null Json.null (some (Json.bool true))
      = Json.obj (JsonFields.cons "if"
          (Json.arr (JsonList.cons Json.null (JsonList.cons Json.null
            (JsonList.cons (Json.bool true) JsonList.nil))))
          JsonFields.nil) ∧
    BuilderM.build_if Json.null Json.null (some (Json.obj JsonFields.nil))
      = Json.obj (JsonFields.cons "if"
          (Json.arr (JsonList.cons Json.null
            (JsonList.cons Json.null JsonList.nil)))
          JsonFields.nil) :=
  ⟨(C10_build_if_truthiness Json.null Json.null (Json.bool true)).1 rfl,
   (C10_build_if_truthiness Json.null Json.null (Json.bool true)).2.2.2.2⟩
